import Mathlib

/-!
Verification of the HTML-to-LLM processing pipeline of
`src/local-playground/enhanced-html-processor.ts`.

The pipeline's own logic (loading, embedded-content inlining, link
harvesting, sanitizing, content selection, rendering dispatch, whitespace
normalization) is translated directly from the source.  External
collaborators (the HTML parser, the readability extractor, the Markdown
serializer, the CSS selector engine, the WHATWG URL constructor) are out of
scope per the specification and are modelled as parameters of the pipeline;
collaborators that may throw are modelled with `Except`, and a thrown URL
resolution with `Option`.
-/

namespace Reader

/-! ## Whitespace normalizer (`cleanRedundantEmptyLines`)

Source:
```
function cleanRedundantEmptyLines(text: string): string {
  const lines = text.split(/\r?\n/g);
  const mappedFlag = lines.map(line => Boolean(line.trim()));
  return lines.filter((_, i) => mappedFlag[i] || mappedFlag[i - 1]).join('\n');
}
```
-/

/-- Whitespace test used by `trim` and the regex class `\s` (ASCII model of
the JavaScript predicate). -/
def wsChar (c : Char) : Bool := c.isWhitespace

/-- `Boolean(line.trim())`: a line is significant iff it contains a
non-whitespace character. -/
def sigLine (l : List Char) : Bool := l.any (fun c => !wsChar c)

/-- Prepend a character to the first chunk of a chunk list. -/
def consHead (c : Char) : List (List Char) → List (List Char)
  | [] => [[c]]
  | l :: ls => (c :: l) :: ls

/-- Split on the newline character alone (first stage of the model of
`split(/\r?\n/g)`). -/
def splitOnNl : List Char → List (List Char)
  | [] => [[]]
  | c :: cs => if c = '\n' then [] :: splitOnNl cs else consHead c (splitOnNl cs)

/-- Remove one trailing carriage return from a chunk, if present. -/
def strip1CR : List Char → List Char
  | [] => []
  | c :: cs =>
    match cs with
    | [] => if c = '\r' then [] else [c]
    | c2 :: cs2 => c :: strip1CR (c2 :: cs2)

/-- Drop the carriage return consumed by the separator `\r?\n` from every
chunk that precedes a separator, i.e. from every chunk but the last. -/
def stripSepCR : List (List Char) → List (List Char)
  | [] => []
  | [l] => [l]
  | l :: ls => strip1CR l :: stripSepCR ls

/-- `text.split(/\r?\n/g)`: each newline, together with at most one
immediately preceding carriage return, acts as a separator.  Splitting on the
newlines and then removing the carriage return the separator consumed from
each non-final chunk realises exactly that. -/
def splitLines (cs : List Char) : List (List Char) := stripSepCR (splitOnNl cs)

/-- `lines.filter((_, i) => mappedFlag[i] || mappedFlag[i - 1])`: the
accumulator `prev` carries `mappedFlag[i - 1]`, which is `false` initially
(`mappedFlag[-1]` is `undefined`, hence falsy). -/
def keepSig : Bool → List (List Char) → List (List Char)
  | _, [] => []
  | prev, l :: ls =>
    if sigLine l || prev then l :: keepSig (sigLine l) ls else keepSig (sigLine l) ls

/-- `join('\n')`. -/
def joinNL : List (List Char) → List Char
  | [] => []
  | [l] => l
  | l :: ls => l ++ '\n' :: joinNL ls

/-- Removes redundant empty lines from text: keeps a line iff it is itself
significant or the line just before it was (translated from
`cleanRedundantEmptyLines`). -/
def cleanRedundantEmptyLines (text : String) : String :=
  String.mk (joinNL (keepSig false (splitLines text.data)))

example : cleanRedundantEmptyLines "A\n\n\n\nB" = "A\n\nB" := by decide
example : cleanRedundantEmptyLines "a\r\r\nb" = "a\r\nb" := by decide
example : cleanRedundantEmptyLines "a\r\nb" = "a\nb" := by decide
example : cleanRedundantEmptyLines "" = "" := by decide
example : cleanRedundantEmptyLines "\n\nA" = "A" := by decide

/-! ### Lemmas about the line splitter -/

theorem sigLine_cons (c : Char) (cs : List Char) :
    sigLine (c :: cs) = (!wsChar c || sigLine cs) := rfl

theorem splitOnNl_ne_nil (cs : List Char) : splitOnNl cs ≠ [] := by
  induction cs with
  | nil => simp [splitOnNl]
  | cons c cs ih =>
    by_cases hc : c = '\n'
    · simp [splitOnNl, hc]
    · simp only [splitOnNl, if_neg hc]
      cases h : splitOnNl cs with
      | nil => exact absurd h ih
      | cons l ls => simp [consHead]

theorem mem_splitOnNl_no_nl : ∀ (cs l : List Char), l ∈ splitOnNl cs → '\n' ∉ l := by
  intro cs
  induction cs with
  | nil =>
    intro l hl
    simp [splitOnNl] at hl
    simp [hl]
  | cons c cs ih =>
    intro l hl
    by_cases hc : c = '\n'
    · simp only [splitOnNl, if_pos hc] at hl
      rcases List.mem_cons.mp hl with h | h
      · subst h; simp
      · exact ih l h
    · simp only [splitOnNl, if_neg hc] at hl
      cases hsp : splitOnNl cs with
      | nil => exact absurd hsp (splitOnNl_ne_nil cs)
      | cons l0 ls =>
        rw [hsp] at hl
        simp only [consHead] at hl
        rcases List.mem_cons.mp hl with h | h
        · subst h
          intro hmem
          rcases List.mem_cons.mp hmem with h1 | h1
          · exact hc h1.symm
          · exact ih l0 (hsp ▸ List.mem_cons_self _ _) h1
        · exact ih l (hsp ▸ List.mem_cons_of_mem _ h)

theorem mem_splitOnNl_subset :
    ∀ (cs l : List Char), l ∈ splitOnNl cs → ∀ c', c' ∈ l → c' ∈ cs := by
  intro cs
  induction cs with
  | nil =>
    intro l hl c' hc'
    simp [splitOnNl] at hl
    subst hl
    simp at hc'
  | cons c cs ih =>
    intro l hl c' hc'
    by_cases hc : c = '\n'
    · simp only [splitOnNl, if_pos hc] at hl
      rcases List.mem_cons.mp hl with h | h
      · subst h; simp at hc'
      · exact List.mem_cons_of_mem _ (ih l h c' hc')
    · simp only [splitOnNl, if_neg hc] at hl
      cases hsp : splitOnNl cs with
      | nil => exact absurd hsp (splitOnNl_ne_nil cs)
      | cons l0 ls =>
        rw [hsp] at hl
        simp only [consHead] at hl
        rcases List.mem_cons.mp hl with h | h
        · subst h
          rcases List.mem_cons.mp hc' with h1 | h1
          · exact h1 ▸ List.mem_cons_self _ _
          · exact List.mem_cons_of_mem _
              (ih l0 (hsp ▸ List.mem_cons_self _ _) c' h1)
        · exact List.mem_cons_of_mem _ (ih l (hsp ▸ List.mem_cons_of_mem _ h) c' hc')

theorem splitOnNl_append_nl :
    ∀ (l rest : List Char), '\n' ∉ l →
      splitOnNl (l ++ '\n' :: rest) = l :: splitOnNl rest := by
  intro l
  induction l with
  | nil => intro rest _; simp [splitOnNl]
  | cons c l' ih =>
    intro rest h
    have hc : ¬(c = '\n') := fun e => h (by simp [e])
    have h' : '\n' ∉ l' := fun hm => h (List.mem_cons_of_mem _ hm)
    simp only [List.cons_append, splitOnNl, if_neg hc]
    rw [show l'.append ('\n' :: rest) = l' ++ '\n' :: rest from rfl, ih rest h']
    rfl

theorem splitOnNl_of_no_nl : ∀ (l : List Char), '\n' ∉ l → splitOnNl l = [l] := by
  intro l
  induction l with
  | nil => intro _; rfl
  | cons c l' ih =>
    intro h
    have hc : ¬(c = '\n') := fun e => h (by simp [e])
    have h' : '\n' ∉ l' := fun hm => h (List.mem_cons_of_mem _ hm)
    simp only [splitOnNl, if_neg hc, ih h', consHead]

theorem splitOnNl_joinNL :
    ∀ (ls : List (List Char)), ls ≠ [] → (∀ l ∈ ls, '\n' ∉ l) →
      splitOnNl (joinNL ls) = ls := by
  intro ls
  induction ls with
  | nil => intro h _; exact absurd rfl h
  | cons l ls ih =>
    intro _ hnl
    cases ls with
    | nil => exact splitOnNl_of_no_nl l (hnl l (List.mem_cons_self _ _))
    | cons l2 ls2 =>
      have h1 : joinNL (l :: l2 :: ls2) = l ++ '\n' :: joinNL (l2 :: ls2) := rfl
      rw [h1, splitOnNl_append_nl _ _ (hnl l (List.mem_cons_self _ _)),
        ih (by simp) (fun x hx => hnl x (List.mem_cons_of_mem _ hx))]

/-! ### Lemmas about carriage-return stripping -/

theorem strip1CR_of_no_cr : ∀ (l : List Char), '\r' ∉ l → strip1CR l = l := by
  intro l
  induction l with
  | nil => intro _; rfl
  | cons c cs ih =>
    intro h
    have hc : ¬(c = '\r') := fun e => h (by simp [e])
    cases cs with
    | nil => simp [strip1CR, hc]
    | cons c2 cs2 =>
      have h2 : '\r' ∉ c2 :: cs2 := fun hm => h (List.mem_cons_of_mem _ hm)
      simp only [strip1CR, ih h2]

theorem sigLine_strip1CR : ∀ (l : List Char), sigLine (strip1CR l) = sigLine l := by
  intro l
  induction l with
  | nil => rfl
  | cons c cs ih =>
    cases cs with
    | nil =>
      by_cases hc : c = '\r'
      · subst hc; simp [strip1CR, sigLine, wsChar]
      · simp [strip1CR, hc]
    | cons c2 cs2 =>
      simp only [strip1CR, sigLine_cons, ih]

theorem mem_strip1CR : ∀ (l : List Char) (c : Char), c ∈ strip1CR l → c ∈ l := by
  intro l
  induction l with
  | nil => intro c h; simp [strip1CR] at h
  | cons c0 cs ih =>
    intro c h
    cases cs with
    | nil =>
      by_cases hc : c0 = '\r'
      · simp [strip1CR, hc] at h
      · simp [strip1CR, hc] at h; simp [h]
    | cons c2 cs2 =>
      simp only [strip1CR] at h
      rcases List.mem_cons.mp h with h1 | h1
      · exact h1 ▸ List.mem_cons_self _ _
      · exact List.mem_cons_of_mem _ (ih c h1)

theorem map_sigLine_stripSepCR :
    ∀ (ls : List (List Char)), (stripSepCR ls).map sigLine = ls.map sigLine := by
  intro ls
  induction ls with
  | nil => rfl
  | cons l ls ih =>
    cases ls with
    | nil => rfl
    | cons l2 ls2 =>
      simp only [stripSepCR, List.map_cons, sigLine_strip1CR]
      rw [show (stripSepCR (l2 :: ls2)).map sigLine = (l2 :: ls2).map sigLine from ih]
      simp

theorem mem_stripSepCR_chars :
    ∀ (ls : List (List Char)) (l : List Char) (c : Char),
      l ∈ stripSepCR ls → c ∈ l → ∃ l0 ∈ ls, c ∈ l0 := by
  intro ls
  induction ls with
  | nil => intro l c h _; simp [stripSepCR] at h
  | cons l0 ls ih =>
    intro l c hl hc
    cases ls with
    | nil =>
      simp only [stripSepCR, List.mem_singleton] at hl
      exact ⟨l0, List.mem_cons_self _ _, hl ▸ hc⟩
    | cons l2 ls2 =>
      simp only [stripSepCR] at hl
      rcases List.mem_cons.mp hl with h | h
      · exact ⟨l0, List.mem_cons_self _ _, mem_strip1CR _ _ (h ▸ hc)⟩
      · obtain ⟨lx, hlx, hcx⟩ := ih l c h hc
        exact ⟨lx, List.mem_cons_of_mem _ hlx, hcx⟩

theorem stripSepCR_of_no_cr :
    ∀ (ls : List (List Char)), (∀ l ∈ ls, '\r' ∉ l) → stripSepCR ls = ls := by
  intro ls
  induction ls with
  | nil => intro _; rfl
  | cons l ls ih =>
    intro h
    cases ls with
    | nil => rfl
    | cons l2 ls2 =>
      simp only [stripSepCR, strip1CR_of_no_cr l (h l (List.mem_cons_self _ _))]
      rw [show stripSepCR (l2 :: ls2) = l2 :: ls2 from
        ih (fun x hx => h x (List.mem_cons_of_mem _ hx))]

/-! ### Lemmas about the keep filter -/

/-- Adjacent output lines are never both blank. -/
def sigRel (a b : List Char) : Prop := sigLine a = true ∨ sigLine b = true

theorem keepSig_head_sig :
    ∀ (ls : List (List Char)) (l : List Char) (ks : List (List Char)),
      keepSig false ls = l :: ks → sigLine l = true := by
  intro ls
  induction ls with
  | nil => intro l ks h; simp [keepSig] at h
  | cons l0 ls ih =>
    intro l ks h
    cases hs : sigLine l0 with
    | true =>
      simp only [keepSig, hs, Bool.true_or, if_true, List.cons.injEq] at h
      exact h.1 ▸ hs
    | false =>
      simp only [keepSig, hs, Bool.false_or, if_false] at h
      exact ih l ks h

theorem keepSig_mem :
    ∀ (ls : List (List Char)) (prev : Bool) (l : List Char),
      l ∈ keepSig prev ls → l ∈ ls := by
  intro ls
  induction ls with
  | nil => intro prev l h; simp [keepSig] at h
  | cons l0 ls ih =>
    intro prev l h
    by_cases hc : (sigLine l0 || prev) = true
    · simp only [keepSig, if_pos hc] at h
      rcases List.mem_cons.mp h with h1 | h1
      · exact h1 ▸ List.mem_cons_self _ _
      · exact List.mem_cons_of_mem _ (ih _ l h1)
    · simp only [keepSig, if_neg hc] at h
      exact List.mem_cons_of_mem _ (ih _ l h)

theorem keepSig_chain :
    ∀ (ls : List (List Char)) (prev : Bool), List.Chain' sigRel (keepSig prev ls) := by
  intro ls
  induction ls with
  | nil => intro prev; simp [keepSig]
  | cons l ls ih =>
    intro prev
    cases hs : sigLine l with
    | true =>
      simp only [keepSig, hs, Bool.true_or, if_true]
      rw [List.chain'_cons']
      exact ⟨fun b _ => Or.inl hs, ih true⟩
    | false =>
      cases prev with
      | false => simpa only [keepSig, hs, Bool.false_or, if_false] using ih false
      | true =>
        simp only [keepSig, hs, Bool.false_or, if_true]
        rw [List.chain'_cons']
        refine ⟨?_, ih false⟩
        intro b hb
        cases hk : keepSig false ls with
        | nil => rw [hk] at hb; simp at hb
        | cons k ks =>
          rw [hk] at hb
          simp only [List.head?_cons, Option.mem_def, Option.some.injEq] at hb
          exact Or.inr (hb ▸ keepSig_head_sig ls k ks hk)

theorem keepSig_fixed :
    ∀ (ls : List (List Char)) (prev : Bool),
      List.Chain' sigRel ls →
      (∀ l0 ls0, ls = l0 :: ls0 → (sigLine l0 || prev) = true) →
      keepSig prev ls = ls := by
  intro ls
  induction ls with
  | nil => intro prev _ _; rfl
  | cons l ls ih =>
    intro prev hchain hhead
    have hcond := hhead l ls rfl
    simp only [keepSig, if_pos hcond]
    rw [ih (sigLine l) (List.chain'_cons'.mp hchain).2 ?_]
    intro l0 ls0 h0
    have hr : sigRel l l0 := (List.chain'_cons'.mp hchain).1 l0 (by simp [h0])
    rcases hr with h | h <;> simp [h]

theorem keepSig_eq_zip :
    ∀ (ls : List (List Char)) (prev : Bool),
      keepSig prev ls =
        (ls.zip (prev :: ls.map sigLine)).filterMap
          (fun lp => if sigLine lp.1 || lp.2 then some lp.1 else none) := by
  intro ls
  induction ls with
  | nil => intro prev; rfl
  | cons l ls ih =>
    intro prev
    by_cases hc : (sigLine l || prev) = true
    · simp only [keepSig, if_pos hc, List.map_cons, List.zip_cons_cons,
        List.filterMap_cons, hc, if_true]
      exact congrArg _ (ih (sigLine l))
    · simp only [keepSig, if_neg hc, List.map_cons, List.zip_cons_cons,
        List.filterMap_cons, if_neg hc]
      exact ih (sigLine l)

theorem chain'_sigRel_of_map_eq {as bs : List (List Char)}
    (h : as.map sigLine = bs.map sigLine) (hb : List.Chain' sigRel bs) :
    List.Chain' sigRel as := by
  have hb' : List.Chain' (fun x y => x = true ∨ y = true) (bs.map sigLine) := by
    rw [List.chain'_map]
    exact hb
  rw [← h, List.chain'_map] at hb'
  exact hb'

/-- Lines kept by the normalizer contain no newline character. -/
theorem kept_no_nl (s : String) :
    ∀ l ∈ keepSig false (splitLines s.data), '\n' ∉ l := by
  intro l hl hmem
  have h1 : l ∈ splitLines s.data := keepSig_mem _ _ _ hl
  obtain ⟨l0, hl0, hc⟩ := mem_stripSepCR_chars _ _ _ h1 hmem
  exact mem_splitOnNl_no_nl _ _ hl0 hc

/-- Core of the no-consecutive-blank-lines invariant, for any chunk list. -/
theorem clean_chain_core (chunks : List (List Char))
    (hnl : ∀ l ∈ keepSig false chunks, '\n' ∉ l) :
    List.Chain' sigRel (splitLines (joinNL (keepSig false chunks))) := by
  by_cases hke : keepSig false chunks = []
  · rw [hke]
    show List.Chain' sigRel (stripSepCR (splitOnNl []))
    simp only [splitOnNl, stripSepCR]
    exact List.chain'_singleton _
  · show List.Chain' sigRel (stripSepCR (splitOnNl (joinNL (keepSig false chunks))))
    rw [splitOnNl_joinNL _ hke hnl]
    exact chain'_sigRel_of_map_eq (map_sigLine_stripSepCR _) (keepSig_chain _ _)

/-- Core of the no-leading-blank-line invariant, for any chunk list. -/
theorem clean_head_core (chunks : List (List Char))
    (hnl : ∀ l ∈ keepSig false chunks, '\n' ∉ l) :
    joinNL (keepSig false chunks) = [] ∨
      ∃ l ls, splitLines (joinNL (keepSig false chunks)) = l :: ls ∧ sigLine l = true := by
  cases hke : keepSig false chunks with
  | nil => left; rfl
  | cons k ks =>
    right
    have hs := keepSig_head_sig _ _ _ hke
    have hnl' : ∀ l ∈ (k :: ks), '\n' ∉ l := by rw [← hke]; exact hnl
    have hsplit : splitLines (joinNL (k :: ks)) = stripSepCR (k :: ks) := by
      show stripSepCR (splitOnNl (joinNL (k :: ks))) = _
      rw [splitOnNl_joinNL _ (by simp) hnl']
    cases ks with
    | nil => exact ⟨k, [], by rw [hsplit]; rfl, hs⟩
    | cons k2 ks2 =>
      refine ⟨strip1CR k, stripSepCR (k2 :: ks2), by rw [hsplit]; rfl, ?_⟩
      rw [sigLine_strip1CR]
      exact hs

/-- C6: the whitespace normalizer keeps exactly the lines that are themselves
significant or whose immediately preceding line was significant; consequently
its output never has two consecutive blank lines, never begins with a blank
line unless it is empty, and on the input `"A\n\n\n\nB"` it returns exactly
`"A\n\nB"`. -/
theorem cleanRedundantEmptyLines_spec (s : String) :
    (cleanRedundantEmptyLines s =
      String.mk (joinNL (((splitLines s.data).zip
          (false :: (splitLines s.data).map sigLine)).filterMap
        (fun lp => if sigLine lp.1 || lp.2 then some lp.1 else none)))) ∧
    List.Chain' sigRel (splitLines (cleanRedundantEmptyLines s).data) ∧
    (cleanRedundantEmptyLines s = "" ∨
      ∃ l ls, splitLines (cleanRedundantEmptyLines s).data = l :: ls ∧ sigLine l = true) ∧
    cleanRedundantEmptyLines "A\n\n\n\nB" = "A\n\nB" := by
  refine ⟨?_, ?_, ?_, by decide⟩
  · show String.mk (joinNL (keepSig false (splitLines s.data))) = _
    rw [keepSig_eq_zip]
  · show List.Chain' sigRel (splitLines
      (String.mk (joinNL (keepSig false (splitLines s.data)))).data)
    exact clean_chain_core (splitLines s.data) (kept_no_nl s)
  · rcases clean_head_core (splitLines s.data) (kept_no_nl s) with h | h
    · left
      show String.mk (joinNL (keepSig false (splitLines s.data))) = ""
      rw [h]
    · right
      exact h

/-- C7 counterexample: the normalizer is not idempotent.  On `"a\r\r\nb"` the
first pass leaves a stray carriage return directly before a newline, which
the second pass then consumes as part of a `\r?\n` separator. -/
theorem clean_not_idempotent_cex :
    cleanRedundantEmptyLines (cleanRedundantEmptyLines "a\r\r\nb") ≠
      cleanRedundantEmptyLines "a\r\r\nb" := by decide

/-- C7 (amended): the whitespace normalizer is idempotent on every input that
contains no carriage return character. -/
theorem clean_idempotent_no_cr (s : String) (h : '\r' ∉ s.data) :
    cleanRedundantEmptyLines (cleanRedundantEmptyLines s) = cleanRedundantEmptyLines s := by
  have hnl := kept_no_nl s
  have hcr : ∀ l ∈ keepSig false (splitLines s.data), '\r' ∉ l := by
    intro l hl hmem
    obtain ⟨l0, hl0, hc⟩ :=
      mem_stripSepCR_chars _ _ _ (keepSig_mem _ _ _ hl) hmem
    exact h (mem_splitOnNl_subset _ _ hl0 _ hc)
  by_cases hke : keepSig false (splitLines s.data) = []
  · have h1 : cleanRedundantEmptyLines s = "" := by
      show String.mk (joinNL (keepSig false (splitLines s.data))) = ""
      rw [hke]
      rfl
    rw [h1]
    decide
  · have hstep : splitLines (cleanRedundantEmptyLines s).data =
        keepSig false (splitLines s.data) := by
      show stripSepCR (splitOnNl
        (String.mk (joinNL (keepSig false (splitLines s.data)))).data) = _
      rw [show (String.mk (joinNL (keepSig false (splitLines s.data)))).data =
        joinNL (keepSig false (splitLines s.data)) from rfl]
      rw [splitOnNl_joinNL _ hke hnl]
      exact stripSepCR_of_no_cr _ hcr
    show String.mk (joinNL (keepSig false
      (splitLines (cleanRedundantEmptyLines s).data))) = cleanRedundantEmptyLines s
    rw [hstep]
    rw [keepSig_fixed _ false (keepSig_chain _ _) ?_]
    · rfl
    · intro l0 ls0 h0
      simp [keepSig_head_sig _ _ _ h0]

/-- Witness for the amended C7, at the concrete input `"A\n\n\nB"`. -/
theorem clean_idempotent_no_cr_witness :
    '\r' ∉ ("A\n\n\nB" : String).data ∧
      cleanRedundantEmptyLines (cleanRedundantEmptyLines "A\n\n\nB") =
        cleanRedundantEmptyLines "A\n\n\nB" :=
  ⟨by decide, clean_idempotent_no_cr "A\n\n\nB" (by decide)⟩

/-! ## Document tree model

The parser collaborator (linkedom) produces a mutable document tree; we model
it as an immutable tree of element, text and comment nodes.  The `rowsTag`
flag on an element models the presence of the synthetic enumerable `rows`
property (whose value is the list of `<tr>` descendants) that
`prepareDomForTurndown` injects with `Object.defineProperty`; trees produced
by the parser never carry it. -/

mutual
inductive Node where
  | text (s : String)
  | comment (s : String)
  | elem (tag : String) (attrs : List (String × String)) (rowsTag : Bool)
      (children : NodeList)
inductive NodeList where
  | nil
  | cons (head : Node) (tail : NodeList)
end

mutual
def beqN : Node → Node → Bool
  | .text a, .text b => a == b
  | .comment a, .comment b => a == b
  | .elem t1 a1 r1 c1, .elem t2 a2 r2 c2 =>
      t1 == t2 && a1 == a2 && r1 == r2 && beqL c1 c2
  | _, _ => false
def beqL : NodeList → NodeList → Bool
  | .nil, .nil => true
  | .cons n1 t1, .cons n2 t2 => beqN n1 n2 && beqL t1 t2
  | _, _ => false
end

instance : BEq Node := ⟨beqN⟩

/-- `getAttribute`: first attribute with the given name, if any. -/
def getAttrOf (attrs : List (String × String)) (name : String) : Option String :=
  (attrs.find? (fun p => p.1 == name)).map (fun p => p.2)

/-- Attribute presence test (the `[attr]` selector form). -/
def hasAttrOf (attrs : List (String × String)) (name : String) : Bool :=
  (getAttrOf attrs name).isSome

/-- `setAttribute`: replace an existing attribute or append a new one. -/
def setAttrOf (attrs : List (String × String)) (name v : String) :
    List (String × String) :=
  if hasAttrOf attrs name then
    attrs.map (fun p => if p.1 == name then (p.1, v) else p)
  else attrs ++ [(name, v)]

def getAttrN (n : Node) (name : String) : Option String :=
  match n with
  | .elem _ attrs _ _ => getAttrOf attrs name
  | _ => none

/-- Tag-name test (HTML tag names are lower-cased by the parser). -/
def isTag (t : String) (n : Node) : Bool :=
  match n with
  | .elem tag _ _ _ => tag == t
  | _ => false

def rowsTagOf : Node → Bool
  | .elem _ _ r _ => r
  | _ => false

def isCommentNode : Node → Bool
  | .comment _ => true
  | _ => false

mutual
/-- `textContent`: concatenated text of all descendant text nodes (comments
excluded). -/
def textContentN : Node → String
  | .text s => s
  | .comment _ => ""
  | .elem _ _ _ cs => textContentL cs
def textContentL : NodeList → String
  | .nil => ""
  | .cons n ns => textContentN n ++ textContentL ns
end

mutual
/-- `querySelectorAll` in document order (preorder).  Invoked on the document
it also considers the root element, as the DOM does. -/
def selectAllN (p : Node → Bool) : Node → List Node
  | .elem t a r cs =>
      (if p (.elem t a r cs) then [Node.elem t a r cs] else []) ++ selectAllL p cs
  | n => if p n then [n] else []
def selectAllL (p : Node → Bool) : NodeList → List Node
  | .nil => []
  | .cons n ns => selectAllN p n ++ selectAllL p ns
end

mutual
/-- Collect matched nodes and `remove()` each: matched nodes disappear with
their subtrees, the rest of the tree is traversed recursively.  (The root
element itself is never removed by the pipeline's selectors.) -/
def removeNodesN (p : Node → Bool) : Node → Node
  | .elem t a r cs => .elem t a r (removeNodesL p cs)
  | n => n
def removeNodesL (p : Node → Bool) : NodeList → NodeList
  | .nil => .nil
  | .cons n ns =>
      if p n then removeNodesL p ns else .cons (removeNodesN p n) (removeNodesL p ns)
end

mutual
/-- `querySelectorAll('svg').forEach(x => x.innerHTML = '')`: empty each svg
element, keeping the element itself. -/
def emptySvgN : Node → Node
  | .elem t a r cs =>
      if t == "svg" then .elem t a r .nil else .elem t a r (emptySvgL cs)
  | n => n
def emptySvgL : NodeList → NodeList
  | .nil => .nil
  | .cons n ns => .cons (emptySvgN n) (emptySvgL ns)
end

mutual
/-- Rewrite the attribute list of every element (`querySelectorAll('*')`
followed by per-element attribute edits). -/
def mapAttrsN (f : List (String × String) → List (String × String)) : Node → Node
  | .elem t a r cs => .elem t (f a) r (mapAttrsL f cs)
  | n => n
def mapAttrsL (f : List (String × String) → List (String × String)) :
    NodeList → NodeList
  | .nil => .nil
  | .cons n ns => .cons (mapAttrsN f n) (mapAttrsL f ns)
end

mutual
/-- Tag every `table` element with the synthetic `rows` property (its value,
the list of `tr` descendants, is modelled by the flag's presence). -/
def tagTablesN : Node → Node
  | .elem t a r cs =>
      .elem t a (if t == "table" then true else r) (tagTablesL cs)
  | n => n
def tagTablesL : NodeList → NodeList
  | .nil => .nil
  | .cons n ns => .cons (tagTablesN n) (tagTablesL ns)
end

/-! ### Kernel-computable string primitives

`String.trim`, `String.startsWith` and `String.map` of the core library do
not reduce inside the kernel; these list-based equivalents model the same
JavaScript operations. -/

/-- Does the second character list begin with the first? -/
def charsLead : List Char → List Char → Bool
  | [], _ => true
  | _ :: _, [] => false
  | p :: ps, c :: cs => p == c && charsLead ps cs

/-- `s.startsWith(pat)`. -/
def strStarts (s pat : String) : Bool := charsLead pat.data s.data

def dropLeadWs : List Char → List Char
  | [] => []
  | c :: cs => if wsChar c then dropLeadWs cs else c :: cs

/-- `s.trim()`. -/
def jsTrim (s : String) : String :=
  String.mk (dropLeadWs ((dropLeadWs s.data.reverse).reverse))

/-- `s.toLowerCase()` (ASCII). -/
def lowerStr (s : String) : String := String.mk (s.data.map Char.toLower)

/-! ### Serialization (`innerHTML` of the parser collaborator) -/

def escTextChar (c : Char) : List Char :=
  if c = '&' then "&amp;".data
  else if c = '<' then "&lt;".data
  else if c = '>' then "&gt;".data
  else [c]

def escText (s : String) : String :=
  String.mk (s.data.foldr (fun c acc => escTextChar c ++ acc) [])

def escAttrChar (c : Char) : List Char :=
  if c = '"' then "&quot;".data else escTextChar c

def escAttr (s : String) : String :=
  String.mk (s.data.foldr (fun c acc => escAttrChar c ++ acc) [])

def serializeAttrs (attrs : List (String × String)) : String :=
  attrs.foldl (fun acc p => acc ++ " " ++ p.1 ++ "=\"" ++ escAttr p.2 ++ "\"") ""

mutual
/-- The parser collaborator's markup serializer (the `innerHTML` getter). -/
def serializeN : Node → String
  | .text s => escText s
  | .comment s => "<!--" ++ s ++ "-->"
  | .elem t a _ cs =>
      "<" ++ t ++ serializeAttrs a ++ ">" ++ serializeL cs ++ "</" ++ t ++ ">"
def serializeL : NodeList → String
  | .nil => ""
  | .cons n ns => serializeN n ++ serializeL ns
end

/-! ### URL resolution (WHATWG `new URL(href, base)` collaborator)

Model of the platform URL constructor on the shapes this pipeline exercises:
an href that already carries a scheme is returned unchanged;
protocol-relative, path-absolute and path-relative hrefs resolve against an
absolute `scheme://host/path` base; every other combination fails (a thrown
`TypeError` is modelled as `none`). -/

def isSchemeChar (c : Char) : Bool := c.isAlphanum || c == '+' || c == '-' || c == '.'

def schemeSplit (cs : List Char) : Option (List Char × List Char) :=
  let sch := cs.takeWhile isSchemeChar
  match cs.drop sch.length with
  | ':' :: r =>
    match sch with
    | [] => none
    | c0 :: _ => if c0.isAlpha then some (sch, r) else none
  | _ => none

def hasScheme (s : String) : Bool := (schemeSplit s.data).isSome

structure UrlParts where
  scheme : String
  host : String
  path : String

def parseAbsUrl (s : String) : Option UrlParts :=
  match schemeSplit s.data with
  | none => none
  | some (sch, rest) =>
    match rest with
    | '/' :: '/' :: r =>
      let host := r.takeWhile (fun c => !(c == '/'))
      let path := r.drop host.length
      if host.isEmpty then none
      else some ⟨String.mk sch, String.mk host, String.mk path⟩
    | _ => none

/-- Base directory of a path: everything up to and including the last slash
(or the root slash when the path has none). -/
def dirPath (p : String) : String :=
  let kept := (p.data.reverse.dropWhile (fun c => !(c == '/'))).reverse
  if kept.isEmpty then "/" else String.mk kept

def urlResolve (href base : String) : Option String :=
  if hasScheme href then some href
  else
    match parseAbsUrl base with
    | none => none
    | some u =>
      if strStarts href "//" then some (u.scheme ++ ":" ++ href)
      else if strStarts href "/" then some (u.scheme ++ "://" ++ u.host ++ href)
      else some (u.scheme ++ "://" ++ u.host ++ dirPath u.path ++ href)

/-- The regex `^(https?:)?\/\/` of the iframe URL fixer. -/
def protoRel (s : String) : Bool :=
  strStarts s "//" || strStarts s "http://" || strStarts s "https://"

/-- JavaScript string truthiness for an optional string option. -/
def optTruthy : Option String → Bool
  | some s => !(s == "")
  | none => false

/-! ### Embedded-content inliner -/

mutual
/-- Shadow-host inlining: for each `[data-shadow-host="true"]` element with a
truthy `data-shadow-content` attribute, replace its children with the parsed
sidecar content (hosts inside freshly inlined content are not revisited, as
they were not in the snapshot the source iterates over). -/
def inlineShadowN (pf : String → NodeList) : Node → Node
  | .elem t a r cs =>
    if getAttrOf a "data-shadow-host" == some "true" then
      match getAttrOf a "data-shadow-content" with
      | some sc =>
          if sc == "" then .elem t a r (inlineShadowL pf cs)
          else .elem t a r (pf sc)
      | none => .elem t a r (inlineShadowL pf cs)
    else .elem t a r (inlineShadowL pf cs)
  | n => n
def inlineShadowL (pf : String → NodeList) : NodeList → NodeList
  | .nil => .nil
  | .cons n ns => .cons (inlineShadowN pf n) (inlineShadowL pf ns)
end

mutual
/-- One URL-fixing pass of the iframe inliner: for every descendant carrying
the given attribute with a truthy value that does not match
`^(https?:)?\/\/`, resolve it against the frame's `src`; keep the original
value when resolution fails. -/
def rewriteUrlAttrN (attrName srcBase : String) : Node → Node
  | .elem t a r cs =>
    let a2 :=
      match getAttrOf a attrName with
      | some v =>
        if !(v == "") && !(protoRel v) then
          match urlResolve v srcBase with
          | some u => setAttrOf a attrName u
          | none => a
        else a
      | none => a
    .elem t a2 r (rewriteUrlAttrL attrName srcBase cs)
  | n => n
def rewriteUrlAttrL (attrName srcBase : String) : NodeList → NodeList
  | .nil => .nil
  | .cons n ns => .cons (rewriteUrlAttrN attrName srcBase n) (rewriteUrlAttrL attrName srcBase ns)
end

mutual
/-- Iframe/frame inlining (`iframe[src],frame[src]` with a truthy
`data-frame-content`): replace the children with the parsed sidecar content,
strip any `script`/`style` it reintroduced, and when both the frame's `src`
and the caller's `baseUrl` are truthy, rewrite relative `src` then `href`
attributes inside the inlined content against the frame's `src`. -/
def inlineIframeN (pf : String → NodeList) (baseUrl : Option String) : Node → Node
  | .elem t a r cs =>
    if (t == "iframe" || t == "frame") && hasAttrOf a "src" then
      match getAttrOf a "data-frame-content" with
      | some fc =>
        if fc == "" then .elem t a r (inlineIframeL pf baseUrl cs)
        else
          let cs1 := removeNodesL (fun n => isTag "script" n || isTag "style" n) (pf fc)
          let src := (getAttrOf a "src").getD ""
          let cs2 :=
            if !(src == "") && optTruthy baseUrl then
              rewriteUrlAttrL "href" src (rewriteUrlAttrL "src" src cs1)
            else cs1
          .elem t a r cs2
      | none => .elem t a r (inlineIframeL pf baseUrl cs)
    else .elem t a r (inlineIframeL pf baseUrl cs)
  | n => n
def inlineIframeL (pf : String → NodeList) (baseUrl : Option String) : NodeList → NodeList
  | .nil => .nil
  | .cons n ns => .cons (inlineIframeN pf baseUrl n) (inlineIframeL pf baseUrl ns)
end

/-! ### Document accessors -/

def childrenOf : Node → NodeList
  | .elem _ _ _ cs => cs
  | _ => .nil

def findChild (t : String) : NodeList → Option Node
  | .nil => none
  | .cons n ns => if isTag t n then some n else findChild t ns

/-- `document.body`: the first `body` element child of the root.  The loader
contract guarantees a body in practice; a missing one is totalized to an
empty body, matching the specification's empty-body worst case. -/
def docBody (root : Node) : Node :=
  match findChild "body" (childrenOf root) with
  | some b => b
  | none => .elem "body" [] false .nil

/-- `document.head`. -/
def docHead (root : Node) : Option Node := findChild "head" (childrenOf root)

/-- `document.title || ''`: the first `title` element in tree order. -/
def docTitle (root : Node) : String :=
  match selectAllN (isTag "title") root with
  | t :: _ => textContentN t
  | [] => ""

/-- `document.head?.querySelector('meta[name="description"]')?.getAttribute('content') || ''`. -/
def docDescription (root : Node) : String :=
  match docHead root with
  | none => ""
  | some h =>
    match selectAllN
        (fun n => isTag "meta" n && getAttrN n "name" == some "description") h with
    | m :: _ => (getAttrN m "content").getD ""
    | [] => ""

/-! ## External collaborators and option records -/

/-- A readability article; `""` models an absent (`null`) field, which the
source only ever consumes through falsy tests (`result.content`,
`result?.title || title`). -/
structure Article where
  title : String
  content : String

/-- The external collaborators of the pipeline (spec section 6): the HTML
parser (`parseDoc` returns `none` when parsing yields no document element;
`parseFrag` is the fragment parse performed by an `innerHTML` assignment),
the readability extractor and the configured Markdown serializer (both may
throw, modelled by `Except`), and the CSS selector engine backing
`querySelectorAll` for caller-supplied selectors. -/
structure Extern where
  parseDoc : String → Option Node
  parseFrag : String → NodeList
  readability : Node → Except Unit (Option Article)
  turndown : String → Except Unit String
  selMatches : String → Node → Bool

inductive FormatOption where
  | markdown
  | text
  deriving DecidableEq

/-- A selector option may be a single selector or a list of selectors. -/
inductive SelectorArg where
  | one (s : String)
  | many (ss : List String)

/-- Advanced options for HTML processing (absent fields are `none`;
`trackPerformance` only toggles timing metrics, which are not modelled). -/
structure ProcessingOptions where
  format : Option FormatOption
  baseUrl : Option String
  trackPerformance : Option Bool
  targetSelector : Option SelectorArg
  removeSelector : Option SelectorArg
  removeComments : Option Bool
  withShadowDom : Option Bool
  withIframe : Option Bool

/-- The second argument of `processHtml`: a bare format string or a full
options object. -/
inductive FormatOrOptions where
  | fmt (f : FormatOption)
  | opts (o : ProcessingOptions)

/-- Interface for the returned data from HTML processing.  The source always
assigns `title` and `description` (possibly empty strings), so the optional
fields are modelled as strings. -/
structure ProcessedHTML where
  content : String
  title : String
  description : String
  links : List (String × String)
  deriving DecidableEq

/-! ## The pipeline -/

/-- `typeof formatOrOptions === 'string' ? { format, baseUrl } : formatOrOptions`.
Field order: format, baseUrl, trackPerformance, targetSelector,
removeSelector, removeComments, withShadowDom, withIframe. -/
def optsOfArg : FormatOrOptions → Option String → ProcessingOptions
  | .fmt f, b => ⟨some f, b, none, none, none, none, none, none⟩
  | .opts o, _ => o

/-- `text.replace(/\s+/g, ' ').trim()`. -/
def collapseWsAux : List Char → Bool → List Char
  | [], _ => []
  | c :: cs, inRun =>
    if wsChar c then
      if inRun then collapseWsAux cs true else ' ' :: collapseWsAux cs true
    else c :: collapseWsAux cs false

def collapseWs (s : String) : String := jsTrim (String.mk (collapseWsAux s.data false))

/-- The document loader: parse, and re-parse with an `<html><body>` wrapper
when the first parse yields no document element.  The parser contract
guarantees a root after the retry; the model totalizes the remaining case
with an empty document. -/
def loadDoc (e : Extern) (html : String) : Node :=
  match e.parseDoc html with
  | some root => root
  | none =>
    match e.parseDoc ("<html><body>" ++ html ++ "</body></html>") with
    | some root => root
    | none => .elem "html" [] false .nil

/-- Shadow-DOM stage (`options.withShadowDom !== false`). -/
def docShadow (e : Extern) (opts : ProcessingOptions) (html : String) : Node :=
  if opts.withShadowDom = some false then loadDoc e html
  else inlineShadowN e.parseFrag (loadDoc e html)

/-- Iframe stage (`options.withIframe !== false`). -/
def docInlined (e : Extern) (opts : ProcessingOptions) (html : String) : Node :=
  if opts.withIframe = some false then docShadow e opts html
  else inlineIframeN e.parseFrag opts.baseUrl (docShadow e opts html)

/-- One entry of the link harvest (the body of the `.map` over
`a[href]` elements), `null` results modelled as `none`. -/
def linkEntry (baseUrl : Option String) (a : Node) : Option (String × String) :=
  let text := collapseWs (textContentN a)
  match getAttrN a "href" with
  | none => none
  | some href =>
    if href = "" then none
    else if strStarts href "javascript:" || strStarts href "file:" then none
    else
      if optTruthy baseUrl then
        match urlResolve href (baseUrl.getD "") with
        | some u => some (text, u)
        | none => none
      else some (text, href)

/-- The `a[href]` selector. -/
def anchorPred (n : Node) : Bool := isTag "a" n && (getAttrN n "href").isSome

/-- Extract links before cleaning (`.map(...).filter(Boolean)`). -/
def harvestLinks (baseUrl : Option String) (d : Node) : List (String × String) :=
  (selectAllN anchorPred d).filterMap (linkEntry baseUrl)

/-- The links field of the result: harvested after inlining, before
sanitizing. -/
def pageLinks (e : Extern) (opts : ProcessingOptions) (html : String) :
    List (String × String) :=
  harvestLinks opts.baseUrl (docInlined e opts html)

/-- `script, style, noscript, meta, link[rel="stylesheet"]`. -/
def isBasicRemovable (n : Node) : Bool :=
  isTag "script" n || isTag "style" n || isTag "noscript" n || isTag "meta" n ||
    (isTag "link" n && getAttrN n "rel" == some "stylesheet")

def isImg (n : Node) : Bool := isTag "img" n

/-- Remove every `data-` and `aria-` attribute. -/
def dataAriaFilter (attrs : List (String × String)) : List (String × String) :=
  attrs.filter (fun p => !(strStarts p.1 "data-" || strStarts p.1 "aria-"))

/-- Drop the `style` attribute unless its lower-cased value starts with
`display: none`. -/
def styleFilter (attrs : List (String × String)) : List (String × String) :=
  match getAttrOf attrs "style" with
  | none => attrs
  | some v =>
    if strStarts (lowerStr v) "display: none" then attrs
    else attrs.filter (fun p => !(p.1 == "style"))

/-- Apply the caller's `removeSelector` option (one or many selectors). -/
def applyRemoveSel (e : Extern) : Option SelectorArg → Node → Node
  | none, d => d
  | some (.one sel), d => removeNodesN (e.selMatches sel) d
  | some (.many sels), d =>
      sels.foldl (fun acc sel => removeNodesN (e.selMatches sel) acc) d

/-- The tree sanitizer, in source order: empty svg subtrees; remove
script/style/noscript/meta/stylesheet-link; apply `removeSelector`; remove
comments unless `removeComments === false`; remove images; strip `data-` and
`aria-` attributes; clean `style` attributes. -/
def sanitizedDoc (e : Extern) (opts : ProcessingOptions) (html : String) : Node :=
  let d1 := emptySvgN (docInlined e opts html)
  let d2 := removeNodesN isBasicRemovable d1
  let d3 := applyRemoveSel e opts.removeSelector d2
  let d4 := if opts.removeComments = some false then d3 else removeNodesN isCommentNode d3
  let d5 := removeNodesN isImg d4
  let d6 := mapAttrsN dataAriaFilter d5
  mapAttrsN styleFilter d6

/-- `if (!allNodes.includes(el)) allNodes.push(el)` over a match list. -/
def pushNew (acc : List Node) (xs : List Node) : List Node :=
  xs.foldl (fun acc el => if acc.contains el then acc else acc ++ [el]) acc

/-- The `targetSelector` match collection (union, deduplicated). -/
def targetNodes (e : Extern) (opts : ProcessingOptions) (html : String) : List Node :=
  match opts.targetSelector with
  | none => []
  | some (.one sel) =>
      pushNew [] (selectAllN (e.selMatches sel) (sanitizedDoc e opts html))
  | some (.many sels) =>
      sels.foldl
        (fun acc sel => pushNew acc (selectAllN (e.selMatches sel) (sanitizedDoc e opts html)))
        []

/-- The readability call and its guards: only performed when no target
selector narrowed the tree (`rootContent === document`); a thrown extractor
(`catch`) and a `null` result coincide in every later use. -/
def readabilityArticle (e : Extern) (opts : ProcessingOptions) (html : String) :
    Option Article :=
  if (targetNodes e opts html).isEmpty then
    match e.readability (sanitizedDoc e opts html) with
    | .ok r => r
    | .error _ => none
  else none

/-- `document.body.innerHTML`. -/
def bodyInnerHTML (root : Node) : String := serializeL (childrenOf (docBody root))

/-- Body children of the synthetic selected document: each matched node
followed by a `'\n\n'` text separator. -/
def syntheticChildren : List Node → NodeList
  | [] => .nil
  | n :: ns => .cons n (.cons (.text "\n\n") (syntheticChildren ns))

/-- The working markup handed to the renderer (`mainContent`). -/
def mainContentOf (e : Extern) (opts : ProcessingOptions) (html : String) : String :=
  let tn := targetNodes e opts html
  if tn.isEmpty then
    match readabilityArticle e opts html with
    | some a =>
        if a.content = "" then bodyInnerHTML (sanitizedDoc e opts html) else a.content
    | none => bodyInnerHTML (sanitizedDoc e opts html)
  else serializeL (syntheticChildren tn)

/-- `readabilityResult?.title || title`. -/
def pageTitle (e : Extern) (opts : ProcessingOptions) (html : String) : String :=
  match readabilityArticle e opts html with
  | some a => if a.title = "" then docTitle (loadDoc e html) else a.title
  | none => docTitle (loadDoc e html)

/-- The tree that `prepareDomForTurndown` builds and tags: it parses the
markup string into a fresh local document and marks every table in it. -/
def prepareDomLocalTree (e : Extern) (html : String) : Node :=
  tagTablesN
    (match e.parseDoc html with
     | some d => d
     | none => .elem "html" [] false .nil)

/-- Prepares DOM content for Turndown by adding special handling for tables
(translated from `prepareDomForTurndown`): the freshly parsed, tagged local
tree is not returned — the function's return type is `void` — so the tagging
has no effect observable by the caller. -/
def prepareDomForTurndown (e : Extern) (html : String) : Unit :=
  let _localTree := prepareDomLocalTree e html
  ()

/-- The tree the Markdown serializer actually works on: it receives only the
markup string (`turndown(markup)`, spec section 6) and parses it afresh. -/
def treeSeenBySerializer (e : Extern) (markup : String) : Node :=
  match e.parseDoc markup with
  | some d => d
  | none => .elem "html" [] false .nil

/-- `parseHTML(mainContent) … body.textContent?.trim() || ''`: the plain-text
extraction of a markup string, used by the text format and by the Markdown
failure fallback. -/
def fallbackText (e : Extern) (markup : String) : String :=
  match e.parseDoc markup with
  | some d => jsTrim (textContentN (docBody d))
  | none => ""

/-- The renderer: Markdown mode tags tables in a throwaway tree, then invokes
the serializer on the markup string, falling back to plain-text extraction if
it throws; text mode extracts text directly. -/
def renderContent (e : Extern) (opts : ProcessingOptions) (html : String) : String :=
  let mc := mainContentOf e opts html
  match opts.format.getD FormatOption.markdown with
  | .markdown =>
    let _prep := prepareDomForTurndown e mc
    match e.turndown mc with
    | .ok s => s
    | .error _ => fallbackText e mc
  | .text => fallbackText e mc

/-- Process HTML into LLM-optimized format (translated from `processHtml`).
Result fields in order: content, title, description, links. -/
def processHtml (e : Extern) (html : String) (formatOrOptions : FormatOrOptions)
    (baseUrl : Option String) : ProcessedHTML :=
  let options := optsOfArg formatOrOptions baseUrl
  ⟨cleanRedundantEmptyLines (renderContent e options html),
    pageTitle e options html,
    docDescription (loadDoc e html),
    pageLinks e options html⟩

/-! ## Concrete fixtures for witnesses and counterexamples -/

/-- The spec's link example input. -/
def c3input : String := "<a href=\"/x\">Link</a>"

/-- Parse tree the collaborator produces for `c3input` (after the loader's
wrapping guarantee). -/
def anchorDoc : Node :=
  .elem "html" [] false (.cons
    (.elem "body" [] false (.cons
      (.elem "a" [("href", "/x")] false (.cons (.text "Link") .nil)) .nil)) .nil)

/-- The anchor element of `anchorDoc`. -/
def anchorNode : Node :=
  .elem "a" [("href", "/x")] false (.cons (.text "Link") .nil)

/-- Collaborator bundle parsing exactly `c3input`. -/
def anchorExtern : Extern :=
  ⟨fun s => if s = c3input then some anchorDoc else none,
   fun _ => .nil, fun _ => .ok none, fun _ => .ok "", fun _ _ => false⟩

/-! ## Claims -/

/-- C1: for every input HTML string, every format-or-options argument, every
base URL and every behavior of the collaborators — in particular whatever the
fallible readability extractor and Markdown serializer do, every failure
being caught inside the pipeline — `processHtml` returns a `ProcessedHTML`
record whose `content` field is a string. -/
theorem processHtml_total (e : Extern) (html : String)
    (formatOrOptions : FormatOrOptions) (baseUrl : Option String) :
    ∃ r : ProcessedHTML, processHtml e html formatOrOptions baseUrl = r ∧
      ∃ s : String, r.content = s :=
  ⟨processHtml e html formatOrOptions baseUrl, rfl, _, rfl⟩

/-- C10: for a fixed document, base URL and remaining options, the title,
description and links of the result are identical whether the requested
format is markdown or text — in both the options-record and the bare-string
calling conventions; the format only influences the content field. -/
theorem format_independent_metadata (e : Extern) (html : String)
    (b b2 : Option String) (tp : Option Bool) (ts rs : Option SelectorArg)
    (rc wsd wif : Option Bool) :
    ((processHtml e html (.opts ⟨some .markdown, b, tp, ts, rs, rc, wsd, wif⟩) b2).title =
        (processHtml e html (.opts ⟨some .text, b, tp, ts, rs, rc, wsd, wif⟩) b2).title ∧
      (processHtml e html (.opts ⟨some .markdown, b, tp, ts, rs, rc, wsd, wif⟩) b2).description =
        (processHtml e html (.opts ⟨some .text, b, tp, ts, rs, rc, wsd, wif⟩) b2).description ∧
      (processHtml e html (.opts ⟨some .markdown, b, tp, ts, rs, rc, wsd, wif⟩) b2).links =
        (processHtml e html (.opts ⟨some .text, b, tp, ts, rs, rc, wsd, wif⟩) b2).links) ∧
    ((processHtml e html (.fmt .markdown) b).title =
        (processHtml e html (.fmt .text) b).title ∧
      (processHtml e html (.fmt .markdown) b).description =
        (processHtml e html (.fmt .text) b).description ∧
      (processHtml e html (.fmt .markdown) b).links =
        (processHtml e html (.fmt .text) b).links) :=
  ⟨⟨rfl, rfl, rfl⟩, rfl, rfl, rfl⟩

/-- C2: every entry of the returned links list originates from an `a[href]`
anchor of the inlined document whose href is non-empty and begins neither
with `javascript:` nor with `file:`; in particular an anchor with
`href="javascript:alert(1)"` contributes no entry. -/
theorem linkEntry_of_href_none (baseUrl : Option String) (a : Node)
    (hhref : getAttrN a "href" = none) : linkEntry baseUrl a = none := by
  unfold linkEntry
  rw [hhref]

theorem linkEntry_of_href_some (baseUrl : Option String) (a : Node) (href : String)
    (hhref : getAttrN a "href" = some href) :
    linkEntry baseUrl a =
      (if href = "" then none
       else if strStarts href "javascript:" || strStarts href "file:" then none
       else if optTruthy baseUrl then
          match urlResolve href (baseUrl.getD "") with
          | some u => some (collapseWs (textContentN a), u)
          | none => none
        else some (collapseWs (textContentN a), href)) := by
  unfold linkEntry
  rw [hhref]

theorem links_only_from_safe_anchors (e : Extern) (html : String)
    (formatOrOptions : FormatOrOptions) (baseUrl : Option String)
    (p : String × String)
    (hp : p ∈ (processHtml e html formatOrOptions baseUrl).links) :
    ∃ a ∈ selectAllN anchorPred (docInlined e (optsOfArg formatOrOptions baseUrl) html),
      ∃ h, getAttrN a "href" = some h ∧ h ≠ "" ∧
        strStarts h "javascript:" = false ∧ strStarts h "file:" = false ∧
        linkEntry (optsOfArg formatOrOptions baseUrl).baseUrl a = some p := by
  have hp' : p ∈ (selectAllN anchorPred
        (docInlined e (optsOfArg formatOrOptions baseUrl) html)).filterMap
      (linkEntry (optsOfArg formatOrOptions baseUrl).baseUrl) := hp
  obtain ⟨a, ha, hea⟩ := List.mem_filterMap.mp hp'
  refine ⟨a, ha, ?_⟩
  have hea' := hea
  cases hhref : getAttrN a "href" with
  | none =>
    rw [linkEntry_of_href_none _ _ hhref] at hea'
    exact absurd hea' (by simp)
  | some href =>
    rw [linkEntry_of_href_some _ _ _ hhref] at hea'
    by_cases h1 : href = ""
    · rw [if_pos h1] at hea'; exact absurd hea' (by simp)
    · rw [if_neg h1] at hea'
      by_cases h2 : (strStarts href "javascript:" || strStarts href "file:") = true
      · rw [if_pos h2] at hea'; exact absurd hea' (by simp)
      · obtain ⟨hja, hfa⟩ := Bool.or_eq_false_iff.mp (Bool.eq_false_iff.mpr h2)
        exact ⟨href, rfl, h1, hja, hfa, hea⟩

/-- Witness for C2 at a concrete document containing one safe anchor. -/
theorem links_only_from_safe_anchors_witness :
    ∃ a ∈ selectAllN anchorPred
        (docInlined anchorExtern (optsOfArg (.fmt .markdown) (some "https://example.com")) c3input),
      ∃ h, getAttrN a "href" = some h ∧ h ≠ "" ∧
        strStarts h "javascript:" = false ∧ strStarts h "file:" = false ∧
        linkEntry (optsOfArg (.fmt .markdown) (some "https://example.com")).baseUrl a =
          some ("Link", "https://example.com/x") :=
  links_only_from_safe_anchors anchorExtern c3input (.fmt .markdown)
    (some "https://example.com") ("Link", "https://example.com/x") (by decide)

/-- C3: for an anchor whose href passed the rejection filters: with a truthy
base URL the entry carries the href resolved against it and is dropped
entirely when resolution fails (no fallback to the raw href); with no base
URL the raw href is used unchanged.  In particular `<a href="/x">Link</a>`
processed with base URL `https://example.com` yields exactly the link list
`[("Link", "https://example.com/x")]`. -/
theorem link_resolution_spec (e : Extern) (a : Node) (h bu : String)
    (hhref : getAttrN a "href" = some h) (hne : h ≠ "")
    (hjs : strStarts h "javascript:" = false) (hfile : strStarts h "file:" = false)
    (hbu : bu ≠ "") :
    ((urlResolve h bu = none → linkEntry (some bu) a = none) ∧
      (∀ u, urlResolve h bu = some u →
        linkEntry (some bu) a = some (collapseWs (textContentN a), u)) ∧
      linkEntry none a = some (collapseWs (textContentN a), h)) ∧
    (e.parseDoc c3input = some anchorDoc →
      (processHtml e c3input (.fmt .markdown) (some "https://example.com")).links =
        [("Link", "https://example.com/x")]) := by
  have htru : optTruthy (some bu) = true := by
    simp [optTruthy, hbu]
  have hguard : ¬((strStarts h "javascript:" || strStarts h "file:") = true) := by
    simp [hjs, hfile]
  have hkey : ∀ (bopt : Option String), linkEntry bopt a =
      (if optTruthy bopt then
        match urlResolve h (bopt.getD "") with
        | some u => some (collapseWs (textContentN a), u)
        | none => none
      else some (collapseWs (textContentN a), h)) := by
    intro bopt
    rw [linkEntry_of_href_some _ _ _ hhref, if_neg hne, if_neg hguard]
  constructor
  · refine ⟨?_, ?_, ?_⟩
    · intro hres
      rw [hkey, if_pos htru]
      simp [hres]
    · intro u hres
      rw [hkey, if_pos htru]
      simp [hres]
    · rw [hkey]
      simp [optTruthy]
  · intro hparse
    have hdoc : docInlined e (optsOfArg (.fmt .markdown) (some "https://example.com"))
        c3input = anchorDoc := by
      unfold docInlined docShadow loadDoc
      rw [hparse]
      rfl
    show harvestLinks (optsOfArg (.fmt .markdown) (some "https://example.com")).baseUrl
      (docInlined e (optsOfArg (.fmt .markdown) (some "https://example.com")) c3input) = _
    rw [hdoc]
    decide

/-- Witness for C3 at the anchor of the spec's example document. -/
theorem link_resolution_spec_witness :
    ((urlResolve "/x" "https://example.com" = none →
        linkEntry (some "https://example.com") anchorNode = none) ∧
      (∀ u, urlResolve "/x" "https://example.com" = some u →
        linkEntry (some "https://example.com") anchorNode =
          some (collapseWs (textContentN anchorNode), u)) ∧
      linkEntry none anchorNode = some (collapseWs (textContentN anchorNode), "/x")) ∧
    (anchorExtern.parseDoc c3input = some anchorDoc →
      (processHtml anchorExtern c3input (.fmt .markdown) (some "https://example.com")).links =
        [("Link", "https://example.com/x")]) :=
  link_resolution_spec anchorExtern anchorNode "/x" "https://example.com"
    (by decide) (by decide) (by decide) (by decide) (by decide)

/-- A document with two identical anchors, and a collaborator bundle that
parses every input to it. -/
def dupDoc : Node :=
  .elem "html" [] false (.cons
    (.elem "body" [] false (.cons
      (.elem "a" [("href", "https://e/")] false (.cons (.text "x") .nil))
      (.cons (.elem "a" [("href", "https://e/")] false (.cons (.text "x") .nil))
        .nil))) .nil)

def dupExtern : Extern :=
  ⟨fun _ => some dupDoc, fun _ => .nil, fun _ => .ok none, fun _ => .ok "",
   fun _ _ => false⟩

/-- C4 counterexample: the links list is not deduplicated — on a document
with two identical anchors the pair `("x", "https://e/")` occurs twice in the
returned list, refuting at-most-once occurrence. -/
theorem links_not_deduplicated_cex :
    ¬ ((processHtml dupExtern
        "<a href=\"https://e/\">x</a><a href=\"https://e/\">x</a>"
        (.fmt .markdown) none).links).Nodup ∧
    ((processHtml dupExtern
        "<a href=\"https://e/\">x</a><a href=\"https://e/\">x</a>"
        (.fmt .markdown) none).links).count ("x", "https://e/") = 2 := by
  refine ⟨by decide, by decide⟩

/-- C4 (amended): the links list preserves document order and duplicates: it
is exactly the per-anchor harvest of the inlined document — one optional
entry per `a[href]` anchor, kept entries in document order, with no
deduplication. -/
theorem links_filterMap_characterization (e : Extern) (html : String)
    (formatOrOptions : FormatOrOptions) (baseUrl : Option String) :
    (processHtml e html formatOrOptions baseUrl).links =
      (selectAllN anchorPred (docInlined e (optsOfArg formatOrOptions baseUrl) html)).filterMap
        (linkEntry (optsOfArg formatOrOptions baseUrl).baseUrl) := rfl

/-- Markdown-mode input containing one table, and a collaborator bundle
parsing it (the body's serialized markup equals the input, so the working
markup parses back to the same tree). -/
def tableMarkup : String := "<table><tr><td>x</td></tr></table>"

def tableDoc : Node :=
  .elem "html" [] false (.cons
    (.elem "body" [] false (.cons
      (.elem "table" [] false (.cons
        (.elem "tr" [] false (.cons
          (.elem "td" [] false (.cons (.text "x") .nil)) .nil)) .nil)) .nil)) .nil)

def tableExtern : Extern :=
  ⟨fun s => if s = tableMarkup then some tableDoc else none,
   fun _ => .nil, fun _ => .ok none, fun _ => .ok "", fun _ _ => false⟩

/-- C5 (code defect, evaluated at the failing input): in markdown mode,
`prepareDomForTurndown` parses the working markup into a fresh local tree and
tags that tree's tables with the `rows` property — but the tagged tree is
discarded (the function returns void), and the serializer receives only the
markup string, which it re-parses.  So the local tree's table does carry the
tag, while the tree the serializer actually works on contains a table and
none of its tables carry it, contradicting the claim. -/
theorem table_rows_tag_lost :
    (selectAllN (isTag "table") (treeSeenBySerializer tableExtern
        (mainContentOf tableExtern (optsOfArg (.fmt .markdown) none) tableMarkup))).length = 1 ∧
    ((selectAllN (isTag "table") (treeSeenBySerializer tableExtern
        (mainContentOf tableExtern (optsOfArg (.fmt .markdown) none) tableMarkup))).all
      (fun t => !(rowsTagOf t)) = true) ∧
    ((selectAllN (isTag "table") (prepareDomLocalTree tableExtern
        (mainContentOf tableExtern (optsOfArg (.fmt .markdown) none) tableMarkup))).all
      (fun t => rowsTagOf t) = true) := by
  refine ⟨by decide, by decide, by decide⟩

/-- The text-format script example input, its parse tree, the parse tree of
the sanitized working markup `<p>Hello</p>`, and a collaborator bundle
realizing both parses. -/
def c8input : String := "<p>Hello</p><script>evil()</script>"

def c8doc : Node :=
  .elem "html" [] false (.cons
    (.elem "body" [] false (.cons
      (.elem "p" [] false (.cons (.text "Hello") .nil))
      (.cons (.elem "script" [] false (.cons (.text "evil()") .nil)) .nil))) .nil)

def c8docInner : Node :=
  .elem "html" [] false (.cons
    (.elem "body" [] false (.cons
      (.elem "p" [] false (.cons (.text "Hello") .nil)) .nil)) .nil)

def c8Extern : Extern :=
  ⟨fun s =>
      if s = c8input then some c8doc
      else if s = "<p>Hello</p>" then some c8docInner
      else none,
   fun _ => .nil, fun _ => .ok none, fun _ => .ok "", fun _ _ => false⟩

/-- C8: processing `<p>Hello</p><script>evil()</script>` in text format
returns content exactly `"Hello"`, and the script body `evil()` occurs
nowhere in the result (content, title, description or links): the sanitizer
removes the script element before extraction. -/
theorem text_format_drops_script (e : Extern)
    (h1 : e.parseDoc c8input = some c8doc)
    (h2 : e.parseDoc "<p>Hello</p>" = some c8docInner)
    (h3 : e.readability (sanitizedDoc e (optsOfArg (.fmt .text) none) c8input) =
      Except.ok none) :
    (processHtml e c8input (.fmt .text) none).content = "Hello" ∧
    (∀ pre post : List Char,
      (processHtml e c8input (.fmt .text) none).content.data ≠
        pre ++ "evil()".data ++ post) ∧
    (processHtml e c8input (.fmt .text) none).title = "" ∧
    (processHtml e c8input (.fmt .text) none).description = "" ∧
    (processHtml e c8input (.fmt .text) none).links = [] := by
  have hload : loadDoc e c8input = c8doc := by
    unfold loadDoc
    rw [h1]
  have hsan : sanitizedDoc e (optsOfArg (.fmt .text) none) c8input = c8docInner := by
    unfold sanitizedDoc docInlined docShadow loadDoc
    rw [h1]
    rfl
  have hmc : mainContentOf e (optsOfArg (.fmt .text) none) c8input = "<p>Hello</p>" := by
    unfold mainContentOf readabilityArticle targetNodes
    rw [h3, hsan]
    rfl
  have hcontent : (processHtml e c8input (.fmt .text) none).content = "Hello" := by
    show cleanRedundantEmptyLines
      (renderContent e (optsOfArg (.fmt .text) none) c8input) = "Hello"
    unfold renderContent
    rw [hmc]
    show cleanRedundantEmptyLines (fallbackText e "<p>Hello</p>") = "Hello"
    unfold fallbackText
    rw [h2]
    rfl
  refine ⟨hcontent, ?_, ?_, ?_, ?_⟩
  · intro pre post heq
    rw [hcontent] at heq
    have hlen := congrArg List.length heq
    simp [List.length_append] at hlen
    omega
  · show pageTitle e (optsOfArg (.fmt .text) none) c8input = ""
    unfold pageTitle readabilityArticle targetNodes
    rw [h3, hsan, hload]
    rfl
  · show docDescription (loadDoc e c8input) = ""
    rw [hload]
    rfl
  · show harvestLinks (optsOfArg (.fmt .text) none).baseUrl
      (docInlined e (optsOfArg (.fmt .text) none) c8input) = []
    unfold docInlined docShadow loadDoc
    rw [h1]
    rfl

/-- Witness for C8, applying it to a concrete collaborator bundle. -/
theorem text_format_drops_script_witness :
    (processHtml c8Extern c8input (.fmt .text) none).content = "Hello" ∧
    (∀ pre post : List Char,
      (processHtml c8Extern c8input (.fmt .text) none).content.data ≠
        pre ++ "evil()".data ++ post) ∧
    (processHtml c8Extern c8input (.fmt .text) none).title = "" ∧
    (processHtml c8Extern c8input (.fmt .text) none).description = "" ∧
    (processHtml c8Extern c8input (.fmt .text) none).links = [] :=
  text_format_drops_script c8Extern rfl rfl rfl

/-- C9: if the Markdown serializer throws, `processHtml` still returns
normally and its content is the cleaned, trimmed plain-text extraction of the
working markup that was being serialized — the same `mainContent` string, not
any other part of the document; the error never reaches the caller. -/
theorem markdown_failure_falls_back (e : Extern) (html : String)
    (formatOrOptions : FormatOrOptions) (baseUrl : Option String) (err : Unit)
    (hfmt : (optsOfArg formatOrOptions baseUrl).format.getD FormatOption.markdown =
      FormatOption.markdown)
    (htd : e.turndown (mainContentOf e (optsOfArg formatOrOptions baseUrl) html) =
      Except.error err) :
    (processHtml e html formatOrOptions baseUrl).content =
      cleanRedundantEmptyLines
        (fallbackText e (mainContentOf e (optsOfArg formatOrOptions baseUrl) html)) := by
  show cleanRedundantEmptyLines
    (renderContent e (optsOfArg formatOrOptions baseUrl) html) = _
  unfold renderContent
  rw [hfmt]
  show cleanRedundantEmptyLines
    (match e.turndown (mainContentOf e (optsOfArg formatOrOptions baseUrl) html) with
     | Except.ok s => s
     | Except.error _ =>
        fallbackText e (mainContentOf e (optsOfArg formatOrOptions baseUrl) html)) = _
  rw [htd]

/-- A serializer that always throws, for the C9 witness. -/
def failingTdExtern : Extern :=
  ⟨fun s => if s = "<p>Hello</p>" then some c8docInner else none,
   fun _ => .nil, fun _ => .ok none, fun _ => .error (), fun _ _ => false⟩

/-- Witness for C9 at a concrete input whose serialization throws. -/
theorem markdown_failure_falls_back_witness :
    (processHtml failingTdExtern "<p>Hello</p>" (.fmt .markdown) none).content =
      cleanRedundantEmptyLines
        (fallbackText failingTdExtern
          (mainContentOf failingTdExtern (optsOfArg (.fmt .markdown) none) "<p>Hello</p>")) :=
  markdown_failure_falls_back failingTdExtern "<p>Hello</p>" (.fmt .markdown) none () rfl rfl

end Reader
